import Mathlib

/-!
Verification of the Connect Four alpha-beta engine
(alphaBetaPruning_connect4.py).

The board is a 6-row by 7-column grid, stored bottom row first
(row 0 is the bottom).  Cells hold 0 (empty), 1 (HUMAN) or 2 (COMPUTER).
Search states are 4-tuples [board, heuristic value, turn, empty count].
The heuristic value is a Python number (int or float); we model it with
the rationals.  The alpha-beta accumulators additionally use the Python
floats -inf and +inf, modelled by the type PyF below.
-/

namespace Connect4

/-- Board: list of 6 rows, each a list of 7 cells, bottom row first. -/
abbrev Board := List (List ℤ)

def EMPTY : ℤ := 0
def HUMAN : ℤ := 1
def COMPUTER : ℤ := 2

/-- VIC, LOSS and TIE are Python ints; all arithmetic on them is integer
arithmetic, so they live in the integers and are cast into the rationals
where a state value (a Python number) is compared or stored. -/
def VIC : ℤ := 10 ^ 20
def LOSS : ℤ := -VIC
def TIE : ℤ := 0
def DEPTH : ℕ := 4

/-- Cell access board[row][col]; out-of-range reads default to 0
(never exercised on 6x7 boards, where all loops stay in range). -/
def cell (b : Board) (r c : ℕ) : ℤ := (b.getD r []).getD c 0

/-- Write a cell: board[row][col] = v. -/
def setCell (b : Board) (r c : ℕ) (v : ℤ) : Board :=
  b.set r ((b.getD r []).set c v)

/-- np.count_nonzero(board == 0) on a 6x7 board: the number of empty cells. -/
def countEmpty (b : Board) : ℤ :=
  ∑ r ∈ Finset.range 6, ∑ c ∈ Finset.range 7, (if cell b r c = 0 then (1 : ℤ) else 0)

/-- Search state [board, heuristic_value, whose_turn, empty_cells]. -/
structure GameState where
  board : Board
  val : ℚ
  turn : ℤ
  empty : ℤ
  deriving DecidableEq, Repr

/-- create_state: wraps a board, placeholder value 0.00001 (the rational
1/100000, written mkRat so that it evaluates), COMPUTER to move. -/
def create_state (b : Board) : GameState :=
  ⟨b, mkRat 1 100000, COMPUTER, countEmpty b⟩

/-- value(s) = s[1]. -/
def value (s : GameState) : ℚ := s.val

/-- is_finished: s[1] in [LOSS, VIC, TIE] or s[3] == 0. -/
def is_finished (s : GameState) : Bool :=
  decide (s.val = (LOSS : ℚ) ∨ s.val = (VIC : ℚ) ∨ s.val = (TIE : ℚ) ∨ s.empty = 0)

/-- is_hum_turn: s[2] == HUMAN. -/
def is_hum_turn (s : GameState) : Bool := decide (s.turn = HUMAN)

/-- get_valid_columns: all columns whose top cell (row ROW_COUNT-1 = 5) is empty. -/
def get_valid_columns (b : Board) : List ℕ :=
  (List.range 7).filter (fun c => decide (cell b 5 c = EMPTY))

/-- get_next_row: first empty row of the column scanning from the bottom,
-1 when the column is full (the loop for row in range(6) unrolled). -/
def get_next_row (b : Board) (col : ℕ) : ℤ :=
  if cell b 0 col = EMPTY then 0
  else if cell b 1 col = EMPTY then 1
  else if cell b 2 col = EMPTY then 2
  else if cell b 3 col = EMPTY then 3
  else if cell b 4 col = EMPTY then 4
  else if cell b 5 col = EMPTY then 5
  else -1

/-- check_win: scan all horizontal, vertical and both diagonal four-windows
for four cells of the given piece. -/
def check_win (b : Board) (piece : ℤ) : Bool :=
  -- horizontal: c in range(COLUMN_COUNT-3), r in range(ROW_COUNT)
  ((List.range 4).any fun c => (List.range 6).any fun r =>
    decide (cell b r c = piece ∧ cell b r (c+1) = piece ∧
            cell b r (c+2) = piece ∧ cell b r (c+3) = piece)) ||
  -- vertical: c in range(COLUMN_COUNT), r in range(ROW_COUNT-3)
  ((List.range 7).any fun c => (List.range 3).any fun r =>
    decide (cell b r c = piece ∧ cell b (r+1) c = piece ∧
            cell b (r+2) c = piece ∧ cell b (r+3) c = piece)) ||
  -- positively sloped diagonals: c in range(4), r in range(3)
  ((List.range 4).any fun c => (List.range 3).any fun r =>
    decide (cell b r c = piece ∧ cell b (r+1) (c+1) = piece ∧
            cell b (r+2) (c+2) = piece ∧ cell b (r+3) (c+3) = piece)) ||
  -- negatively sloped diagonals: c in range(4), r in range(3, 6)
  ((List.range 4).any fun c => (List.range 3).any fun r =>
    decide (cell b (r+3) c = piece ∧ cell b (r+2) (c+1) = piece ∧
            cell b (r+1) (c+2) = piece ∧ cell b r (c+3) = piece))

/-- evaluate_window on a window of 4 cells: the if/elif chain on the count of
own pieces, followed by the independent if/elif chain on opponent pieces. -/
def evaluate_window (w : List ℤ) (piece : ℤ) : ℤ :=
  let opp := if piece = COMPUTER then HUMAN else COMPUTER
  let pc := w.count piece
  let ec := w.count EMPTY
  let oc := w.count opp
  (if pc = 4 then 100
   else if pc = 3 ∧ ec = 1 then 5
   else if pc = 2 ∧ ec = 2 then 2
   else 0) +
  (if oc = 3 ∧ ec = 1 then -50
   else if oc = 2 ∧ ec = 2 then -3
   else 0)

/-- Horizontal window board[r, c:c+4]. -/
def hwin (b : Board) (r c : ℕ) : List ℤ :=
  [cell b r c, cell b r (c+1), cell b r (c+2), cell b r (c+3)]

/-- Vertical window board[r:r+4, c]. -/
def vwin (b : Board) (r c : ℕ) : List ℤ :=
  [cell b r c, cell b (r+1) c, cell b (r+2) c, cell b (r+3) c]

/-- Positively sloped diagonal window starting at (r, c). -/
def dpwin (b : Board) (r c : ℕ) : List ℤ :=
  [cell b r c, cell b (r+1) (c+1), cell b (r+2) (c+2), cell b (r+3) (c+3)]

/-- Negatively sloped diagonal window starting at (r, c). -/
def dnwin (b : Board) (r c : ℕ) : List ℤ :=
  [cell b (r+3) c, cell b (r+2) (c+1), cell b (r+1) (c+2), cell b r (c+3)]

/-- score_position: center-column bias, bottom-row double-threat penalty, and
evaluate_window summed over all four window orientations. -/
def score_position (b : Board) (piece : ℤ) : ℤ :=
  let opp := if piece = COMPUTER then HUMAN else COMPUTER
  -- center column count * 6
  (∑ r ∈ Finset.range 6, if cell b r 3 = piece then (6 : ℤ) else 0) +
  -- bottom-row double-threat penalty
  (if (∑ c ∈ Finset.range 7, if cell b 0 c = opp then (1 : ℤ) else 0) = 2 then
     ∑ c ∈ Finset.range 4,
       (if (hwin b 0 c).count opp = 2 ∧ (hwin b 0 c).count EMPTY = 2 then (-10 : ℤ) else 0)
   else 0) +
  -- horizontal windows
  (∑ r ∈ Finset.range 6, ∑ c ∈ Finset.range 4, evaluate_window (hwin b r c) piece) +
  -- vertical windows
  (∑ c ∈ Finset.range 7, ∑ r ∈ Finset.range 3, evaluate_window (vwin b r c) piece) +
  -- positively sloped diagonal windows
  (∑ r ∈ Finset.range 3, ∑ c ∈ Finset.range 4, evaluate_window (dpwin b r c) piece) +
  -- negatively sloped diagonal windows
  (∑ r ∈ Finset.range 3, ∑ c ∈ Finset.range 4, evaluate_window (dnwin b r c) piece)

/-- make_move: place the piece of the player to move on the first empty row of
col, decrement the empty count, flip the turn, and classify the position.
A full column (row = -1) is a silent no-op. -/
def make_move (s : GameState) (col : ℕ) : GameState :=
  let row := get_next_row s.board col
  if row = -1 then s
  else
    let b := setCell s.board row.toNat col s.turn
    let empty := s.empty - 1
    let turn := if s.turn = HUMAN then COMPUTER else HUMAN
    let v : ℚ :=
      if check_win b COMPUTER then (VIC : ℚ)
      else if check_win b HUMAN then (LOSS : ℚ)
      else if empty = 0 then (TIE : ℚ)
      else ((score_position b COMPUTER - score_position b HUMAN : ℤ) : ℚ)
    ⟨b, v, turn, empty⟩

/-- Sort key abs(x - center) with center = COLUMN_COUNT // 2 = 3. -/
def centerKey (x : ℕ) : ℕ := ((x : ℤ) - 3).natAbs

/-- Stable insertion of x in front of the first element whose key is not
smaller (Python sorted is a stable sort). -/
def insertCenter (x : ℕ) : List ℕ → List ℕ
  | [] => [x]
  | y :: ys => if centerKey y < centerKey x then y :: insertCenter x ys
               else x :: y :: ys

/-- Stable sort by distance from the center column. -/
def sortCenter : List ℕ → List ℕ
  | [] => []
  | x :: xs => insertCenter x (sortCenter xs)

/-- get_next: one child per legal column, in center-first order; each child is
a deep copy of s with the move applied, paired with the column played
(the appended state[-1]). -/
def get_next (s : GameState) : List (GameState × ℕ) :=
  (sortCenter (get_valid_columns s.board)).map (fun col => (make_move s col, col))

/-- Python numeric values as used by the search: float -inf, any finite
int/float value, float +inf.  Finite values are modelled by rationals. -/
inductive PyF where
  | ninf : PyF
  | fin (q : ℚ) : PyF
  | pinf : PyF
  deriving DecidableEq, Repr

/-- Strict less-than on Python numeric values. -/
def PyF.blt : PyF → PyF → Bool
  | .ninf, .ninf => false
  | .ninf, _ => true
  | .fin _, .ninf => false
  | .fin q, .fin r => decide (q < r)
  | .fin _, .pinf => true
  | .pinf, _ => false

/-- Loop body of abmax over the list of children.  v and best are the running
maximum and its column; a is raised, b is fixed; on v >= b the loop returns
immediately with the column just played. -/
def loopMax (f : GameState → PyF → PyF → PyF × ℕ) :
    List (GameState × ℕ) → PyF → PyF → PyF → ℕ → PyF × ℕ
  | [], _, _, v, best => (v, best)
  | (child, col) :: rest, a, b, v, best =>
    let tmp := f child a b
    let v2 := if PyF.blt v tmp.1 then tmp.1 else v
    let best2 := if PyF.blt v tmp.1 then col else best
    if PyF.blt v2 b = false then (v2, col)
    else loopMax f rest (if PyF.blt a v2 then v2 else a) b v2 best2

/-- Loop body of abmin over the list of children (mirror of loopMax):
v is lowered, b is lowered, cutoff when v <= a. -/
def loopMin (f : GameState → PyF → PyF → PyF × ℕ) :
    List (GameState × ℕ) → PyF → PyF → PyF → ℕ → PyF × ℕ
  | [], _, _, v, best => (v, best)
  | (child, col) :: rest, a, b, v, best =>
    let tmp := f child a b
    let v2 := if PyF.blt tmp.1 v then tmp.1 else v
    let best2 := if PyF.blt tmp.1 v then col else best
    if PyF.blt a v2 = false then (v2, col)
    else loopMin f rest a (if PyF.blt v2 b then v2 else b) v2 best2

/-- Alpha-beta search: the mutually recursive pair abmax/abmin written as one
structural recursion on the depth (explicit Nat.rec, so that concrete runs
reduce inside the kernel), parameterized by whether the node is a maximizer.
Base case at depth 0 or finished state returns (value, 0); otherwise fold
over the children with the matching loop. -/
def search : ℕ → Bool → GameState → PyF → PyF → PyF × ℕ :=
  Nat.rec
    (fun _ s _ _ => (PyF.fin (value s), 0))
    (fun _ ih isMax s a b =>
      if is_finished s then (PyF.fin (value s), 0)
      else if isMax then
        loopMax (fun c a2 b2 => ih false c a2 b2) (get_next s) a b PyF.ninf 0
      else
        loopMin (fun c a2 b2 => ih true c a2 b2) (get_next s) a b PyF.pinf 0)

/-- abmax: alpha-beta maximizer (the turn of the AI). -/
def abmax (d : ℕ) (s : GameState) (a b : PyF) : PyF × ℕ := search d true s a b

/-- abmin: alpha-beta minimizer (the turn of the human), mirror of abmax. -/
def abmin (d : ℕ) (s : GameState) (a b : PyF) : PyF × ℕ := search d false s a b

/-- go: build the root state and run abmax at depth 4 with bounds
LOSS - 1 and VIC + 1 (integer arithmetic, as in Python); return the
chosen column. -/
def go (b : Board) : ℕ :=
  (abmax DEPTH (create_state b) (PyF.fin ((LOSS - 1 : ℤ) : ℚ)) (PyF.fin ((VIC + 1 : ℤ) : ℚ))).2

/-! Validity predicates and basic board lemmas. -/

/-- The board has six rows of seven cells. -/
def dims (b : Board) : Prop := b.length = 6 ∧ ∀ row ∈ b, row.length = 7

/-- Gravity: an empty cell has only empty cells above it inside the grid. -/
def gravityOK (b : Board) : Prop :=
  ∀ c, c < 7 → ∀ r, r < 5 → cell b r c = 0 → cell b (r + 1) c = 0

/-- Cells hold only EMPTY, HUMAN or COMPUTER markers. -/
def cellsOK (b : Board) : Prop :=
  ∀ r, r < 6 → ∀ c, c < 7 → cell b r c = 0 ∨ cell b r c = 1 ∨ cell b r c = 2

/-- A structurally valid Connect Four position: right dimensions, well-formed
cell values, and columns filled from the bottom. -/
def ValidBoard (b : Board) : Prop := dims b ∧ cellsOK b ∧ gravityOK b

instance (b : Board) : Decidable (ValidBoard b) := by
  unfold ValidBoard dims cellsOK gravityOK
  infer_instance

/-- Invariant carried by every search state the engine builds. -/
def Inv (s : GameState) : Prop :=
  dims s.board ∧ gravityOK s.board ∧ s.empty = countEmpty s.board ∧
    (s.turn = HUMAN ∨ s.turn = COMPUTER)

/-- Value-boundedness of a search state: the stored value never exceeds the
win sentinel. -/
def ValB (s : GameState) : Prop := s.val ≤ ((VIC : ℤ) : ℚ)

/-- A Python value that is finite and at most the win sentinel. -/
def isFinLe (x : PyF) : Prop := ∃ q, x = PyF.fin q ∧ q ≤ ((VIC : ℤ) : ℚ)

/-- Combined search-state invariant. -/
def Inv2 (s : GameState) : Prop := Inv s ∧ ValB s

/-! Specification-side definitions for the refinement claim on the
evaluator (C5): the window table and the per-player score exactly as the
claim words them. -/

/-- Window score as the specification table states it: the five rows fire
independently and additively (4 own pieces: 100; exactly 3 own and 1 empty:
5; exactly 2 own and 2 empty: 2; exactly 3 opponent and 1 empty: -50;
exactly 2 opponent and 2 empty: -3). -/
def windowTableScore (w : List ℤ) (p : ℤ) : ℤ :=
  let opp := if p = COMPUTER then HUMAN else COMPUTER
  (if w.count p = 4 then 100 else 0) +
  (if w.count p = 3 ∧ w.count EMPTY = 1 then 5 else 0) +
  (if w.count p = 2 ∧ w.count EMPTY = 2 then 2 else 0) +
  (if w.count opp = 3 ∧ w.count EMPTY = 1 then (-50) else 0) +
  (if w.count opp = 2 ∧ w.count EMPTY = 2 then (-3) else 0)

/-- score_position as the claim words it: 6 per own piece in column 3, the
table summed over every window of the four orientations, and, exactly when
the opponent has exactly 2 bottom-row pieces, -10 per bottom-row 4-window
with exactly 2 opponent pieces and 2 empties. -/
def scorePositionSpec (b : Board) (p : ℤ) : ℤ :=
  let opp := if p = COMPUTER then HUMAN else COMPUTER
  6 * (∑ r ∈ Finset.range 6, if cell b r 3 = p then (1 : ℤ) else 0) +
  (∑ r ∈ Finset.range 6, ∑ c ∈ Finset.range 4, windowTableScore (hwin b r c) p) +
  (∑ c ∈ Finset.range 7, ∑ r ∈ Finset.range 3, windowTableScore (vwin b r c) p) +
  (∑ r ∈ Finset.range 3, ∑ c ∈ Finset.range 4, windowTableScore (dpwin b r c) p) +
  (∑ r ∈ Finset.range 3, ∑ c ∈ Finset.range 4, windowTableScore (dnwin b r c) p) +
  (if (∑ c ∈ Finset.range 7, if cell b 0 c = opp then (1 : ℤ) else 0) = 2 then
     ∑ c ∈ Finset.range 4,
       (if (hwin b 0 c).count opp = 2 ∧ (hwin b 0 c).count EMPTY = 2 then (-10 : ℤ) else 0)
   else 0)

/-! Store-passing model of the engine for the frame claim (C9): in Python
the boards are numpy arrays on the heap; a search state holds a reference
to its board, create_state aliases the board supplied by the caller, and
copy.deepcopy allocates a fresh array.  Everything else is identical to
the value-level model above. -/

/-- Heap of allocated board arrays. -/
abbrev Store := List Board

/-- Search state whose board lives behind a reference into the store. -/
structure StateR where
  ref : ℕ
  val : ℚ
  turn : ℤ
  empty : ℤ
  deriving DecidableEq, Repr

/-- Dereference a board. -/
def readB (st : Store) (r : ℕ) : Board := st.getD r []

/-- is_finished on a store-model state. -/
def is_finishedSt (s : StateR) : Bool :=
  decide (s.val = (LOSS : ℚ) ∨ s.val = (VIC : ℚ) ∨ s.val = (TIE : ℚ) ∨ s.empty = 0)

/-- make_move in the store model: writes the updated board back through
the reference of the state (the in-place numpy mutation). -/
def make_moveSt (st : Store) (s : StateR) (col : ℕ) : Store × StateR :=
  let board := readB st s.ref
  let row := get_next_row board col
  if row = -1 then (st, s)
  else
    let b := setCell board row.toNat col s.turn
    let empty := s.empty - 1
    let turn := if s.turn = HUMAN then COMPUTER else HUMAN
    let v : ℚ :=
      if check_win b COMPUTER then (VIC : ℚ)
      else if check_win b HUMAN then (LOSS : ℚ)
      else if empty = 0 then (TIE : ℚ)
      else ((score_position b COMPUTER - score_position b HUMAN : ℤ) : ℚ)
    (st.set s.ref b, ⟨s.ref, v, turn, empty⟩)

/-- copy.deepcopy of a state: allocate a fresh copy of its board. -/
def copySt (st : Store) (s : StateR) : Store × StateR :=
  (st ++ [readB st s.ref], ⟨st.length, s.val, s.turn, s.empty⟩)

/-- Children of get_next in the store model: deep copy, then move, one
column at a time, threading the store. -/
def childrenSt (st : Store) (s : StateR) : List ℕ → Store × List (StateR × ℕ)
  | [] => (st, [])
  | col :: rest =>
    let r1 := copySt st s
    let r2 := make_moveSt r1.1 r1.2 col
    let r3 := childrenSt r2.1 s rest
    (r3.1, (r2.2, col) :: r3.2)

/-- get_next in the store model. -/
def get_nextSt (st : Store) (s : StateR) : Store × List (StateR × ℕ) :=
  childrenSt st s (sortCenter (get_valid_columns (readB st s.ref)))

/-- Loop of abmax in the store model: each child is deep copied again
before the recursive call (copy.deepcopy(state[:4])). -/
def loopMaxSt (f : Store → StateR → PyF → PyF → Store × (PyF × ℕ)) :
    Store → List (StateR × ℕ) → PyF → PyF → PyF → ℕ → Store × (PyF × ℕ)
  | st, [], _, _, v, best => (st, (v, best))
  | st, (child, col) :: rest, a, b, v, best =>
    let r1 := copySt st child
    let r2 := f r1.1 r1.2 a b
    let tmp := r2.2
    let v2 := if PyF.blt v tmp.1 then tmp.1 else v
    let best2 := if PyF.blt v tmp.1 then col else best
    if PyF.blt v2 b = false then (r2.1, (v2, col))
    else loopMaxSt f r2.1 rest (if PyF.blt a v2 then v2 else a) b v2 best2

/-- Loop of abmin in the store model, mirror of loopMaxSt. -/
def loopMinSt (f : Store → StateR → PyF → PyF → Store × (PyF × ℕ)) :
    Store → List (StateR × ℕ) → PyF → PyF → PyF → ℕ → Store × (PyF × ℕ)
  | st, [], _, _, v, best => (st, (v, best))
  | st, (child, col) :: rest, a, b, v, best =>
    let r1 := copySt st child
    let r2 := f r1.1 r1.2 a b
    let tmp := r2.2
    let v2 := if PyF.blt tmp.1 v then tmp.1 else v
    let best2 := if PyF.blt tmp.1 v then col else best
    if PyF.blt a v2 = false then (r2.1, (v2, col))
    else loopMinSt f r2.1 rest a (if PyF.blt v2 b then v2 else b) v2 best2

/-- Alpha-beta search in the store model. -/
def searchSt : ℕ → Bool → Store → StateR → PyF → PyF → Store × (PyF × ℕ) :=
  Nat.rec
    (fun _ st s _ _ => (st, (PyF.fin s.val, 0)))
    (fun _ ih isMax st s a b =>
      if is_finishedSt s then (st, (PyF.fin s.val, 0))
      else
        let r1 := get_nextSt st s
        if isMax then
          loopMaxSt (fun st2 c a2 b2 => ih false st2 c a2 b2) r1.1 r1.2 a b PyF.ninf 0
        else
          loopMinSt (fun st2 c a2 b2 => ih true st2 c a2 b2) r1.1 r1.2 a b PyF.pinf 0)

/-- go in the store model: the root state aliases the board supplied by the
caller (create_state makes no copy), which lives at reference 0; the final
store is returned next to the chosen column. -/
def goSt (b : Board) : Store × ℕ :=
  let st : Store := [b]
  let root : StateR := ⟨0, mkRat 1 100000, COMPUTER, countEmpty b⟩
  let r := searchSt DEPTH true st root (PyF.fin ((LOSS - 1 : ℤ) : ℚ)) (PyF.fin ((VIC + 1 : ℤ) : ℚ))
  (r.1, r.2.2)

/-- Store extension: the first n boards are untouched. -/
def presv (n : ℕ) (st st2 : Store) : Prop :=
  n ≤ st2.length ∧ ∀ i, i < n → readB st2 i = readB st i

/-! Concrete boards used by witnesses and counterexamples. -/

def emptyBoard : Board :=
  [[0,0,0,0,0,0,0],[0,0,0,0,0,0,0],[0,0,0,0,0,0,0],
   [0,0,0,0,0,0,0],[0,0,0,0,0,0,0],[0,0,0,0,0,0,0]]

/-- A full board (no legal column) with no four-in-a-row: a finished tie. -/
def fullBoard : Board :=
  [[1,2,1,2,1,2,1],
   [1,2,1,2,1,2,1],
   [2,1,2,1,2,1,2],
   [2,1,2,1,2,1,2],
   [1,2,1,2,1,2,1],
   [1,2,1,2,1,2,1]]

/-- Board on which exactly one legal column (6) wins immediately for the
COMPUTER, while column 3, closer to the center and searched first, forces a
win one move later: go prefers column 3. -/
def boardC8 : Board :=
  [[1,2,1,1,2,1,2],
   [1,2,1,2,1,1,2],
   [2,1,1,2,1,2,2],
   [2,1,2,0,1,2,0],
   [1,2,1,0,2,1,0],
   [1,2,2,0,1,2,0]]

/-- Board whose center column wins immediately for the COMPUTER. -/
def boardCenterWin : Board :=
  [[1,1,0,2,0,0,1],
   [0,0,0,2,0,0,0],
   [0,0,0,2,0,0,0],
   [0,0,0,0,0,0,0],
   [0,0,0,0,0,0,0],
   [0,0,0,0,0,0,0]]

theorem search_zero (isMax : Bool) (s : GameState) (a b : PyF) :
    search 0 isMax s a b = (PyF.fin (value s), 0) := rfl

theorem search_succ (d : ℕ) (isMax : Bool) (s : GameState) (a b : PyF) :
    search (d + 1) isMax s a b =
      if is_finished s then (PyF.fin (value s), 0)
      else if isMax then
        loopMax (fun c a2 b2 => search d false c a2 b2) (get_next s) a b PyF.ninf 0
      else
        loopMin (fun c a2 b2 => search d true c a2 b2) (get_next s) a b PyF.pinf 0 := rfl

theorem getD_row {b : Board} (h1 : b.length = 6) {r : ℕ} (hr : r < 6) :
    b.getD r [] = b.get ⟨r, by omega⟩ := by
  simp [List.getD_eq_getElem?_getD, List.getElem?_eq_getElem (by omega : r < b.length)]

theorem row_length {b : Board} (hd : dims b) {r : ℕ} (hr : r < 6) :
    (b.getD r []).length = 7 := by
  obtain ⟨h1, h2⟩ := hd
  rw [getD_row h1 hr]
  exact h2 _ (List.get_mem b r (by omega))

theorem dims_setCell {b : Board} {r : ℕ} (c : ℕ) (v : ℤ) (h : dims b) (hr : r < 6) :
    dims (setCell b r c v) := by
  obtain ⟨h1, h2⟩ := h
  refine ⟨by simpa [setCell] using h1, ?_⟩
  intro row hrow
  rcases List.mem_or_eq_of_mem_set hrow with hm | hm
  · exact h2 row hm
  · subst hm
    rw [List.length_set]
    exact row_length ⟨h1, h2⟩ hr

theorem cell_setCell {b : Board} (hd : dims b) {r c : ℕ} (hr : r < 6) (hc : c < 7)
    (v : ℤ) (r2 c2 : ℕ) :
    cell (setCell b r c v) r2 c2 = if r2 = r ∧ c2 = c then v else cell b r2 c2 := by
  have h1 := hd.1
  have hrb : r < b.length := by omega
  have hrow : (b.getD r []).length = 7 := row_length hd hr
  unfold cell setCell
  rcases Decidable.em (r2 = r) with h | h
  · subst h
    have hget : (b.set r2 ((b.getD r2 []).set c v)).getD r2 [] = (b.getD r2 []).set c v := by
      simp [List.getD_eq_getElem?_getD, List.getElem?_set, hrb]
    rw [hget]
    rcases Decidable.em (c2 = c) with h | h
    · subst h
      have hlen : c2 < (b.getD r2 []).length := by omega
      rw [List.getD_eq_getElem?_getD] at hlen
      simp [List.getD_eq_getElem?_getD, List.getElem?_set, hlen]
    · have hne : c ≠ c2 := fun hh => h hh.symm
      simp [List.getD_eq_getElem?_getD, List.getElem?_set, hne, h]
  · have hne : r ≠ r2 := fun hh => h hh.symm
    have hget : (b.set r ((b.getD r []).set c v)).getD r2 [] = b.getD r2 [] := by
      simp [List.getD_eq_getElem?_getD, List.getElem?_set, hne]
    rw [hget]
    simp [h]

/-- get_next_row either reports a full column with -1, or returns the lowest
empty row of the column. -/
theorem get_next_row_spec (b : Board) (col : ℕ) :
    (get_next_row b col = -1 ∧ ∀ r, r < 6 → cell b r col ≠ 0) ∨
    (∃ r : ℕ, get_next_row b col = (r : ℤ) ∧ r < 6 ∧ cell b r col = 0 ∧
      ∀ r2, r2 < r → cell b r2 col ≠ 0) := by
  unfold get_next_row EMPTY
  split_ifs with h0 h1 h2 h3 h4 h5
  · exact Or.inr ⟨0, rfl, by omega, h0, by omega⟩
  · exact Or.inr ⟨1, rfl, by omega, h1, by intro r2 hr2; interval_cases r2 <;> assumption⟩
  · exact Or.inr ⟨2, rfl, by omega, h2, by intro r2 hr2; interval_cases r2 <;> assumption⟩
  · exact Or.inr ⟨3, rfl, by omega, h3, by intro r2 hr2; interval_cases r2 <;> assumption⟩
  · exact Or.inr ⟨4, rfl, by omega, h4, by intro r2 hr2; interval_cases r2 <;> assumption⟩
  · exact Or.inr ⟨5, rfl, by omega, h5, by intro r2 hr2; interval_cases r2 <;> assumption⟩
  · exact Or.inl ⟨rfl, by intro r hr; interval_cases r <;> assumption⟩

/-- A column whose top cell is empty never reports -1. -/
theorem get_next_row_of_top (b : Board) (col : ℕ) (h : cell b 5 col = 0) :
    ∃ r : ℕ, get_next_row b col = (r : ℤ) ∧ r < 6 ∧ cell b r col = 0 ∧
      ∀ r2, r2 < r → cell b r2 col ≠ 0 := by
  rcases get_next_row_spec b col with ⟨_, hall⟩ | hfound
  · exact absurd h (hall 5 (by omega))
  · exact hfound

/-- make_move on a full column is a silent no-op. -/
theorem make_move_full (s : GameState) (col : ℕ)
    (h : get_next_row s.board col = -1) : make_move s col = s := by
  unfold make_move
  simp [h]

/-- make_move unfolded, when the drop row is known. -/
theorem make_move_of_row (s : GameState) (col : ℕ) (r : ℕ)
    (h : get_next_row s.board col = (r : ℤ)) :
    make_move s col =
      ⟨setCell s.board r col s.turn,
       (if check_win (setCell s.board r col s.turn) COMPUTER then (VIC : ℚ)
        else if check_win (setCell s.board r col s.turn) HUMAN then (LOSS : ℚ)
        else if s.empty - 1 = 0 then (TIE : ℚ)
        else ((score_position (setCell s.board r col s.turn) COMPUTER -
               score_position (setCell s.board r col s.turn) HUMAN : ℤ) : ℚ)),
       (if s.turn = HUMAN then COMPUTER else HUMAN),
       s.empty - 1⟩ := by
  unfold make_move
  rw [h]
  have hne : ((r : ℤ)) ≠ -1 := by omega
  simp [hne]

/-- Replacing the value of one cell inside the grid changes countEmpty by the
difference of the two indicator values. -/
theorem countEmpty_setCell {b : Board} (hd : dims b) {r c : ℕ} (hr : r < 6) (hc : c < 7)
    (v : ℤ) :
    countEmpty (setCell b r c v) =
      countEmpty b - (if cell b r c = 0 then (1 : ℤ) else 0) + (if v = 0 then 1 else 0) := by
  unfold countEmpty
  have hcell := cell_setCell hd hr hc v
  have hrmem : r ∈ Finset.range 6 := Finset.mem_range.mpr hr
  have hcmem : c ∈ Finset.range 7 := Finset.mem_range.mpr hc
  -- inner sums agree on every row except r
  have houter :
      (∑ r2 ∈ (Finset.range 6).erase r, ∑ c2 ∈ Finset.range 7,
        (if cell (setCell b r c v) r2 c2 = 0 then (1:ℤ) else 0)) =
      (∑ r2 ∈ (Finset.range 6).erase r, ∑ c2 ∈ Finset.range 7,
        (if cell b r2 c2 = 0 then (1:ℤ) else 0)) := by
    refine Finset.sum_congr rfl (fun r2 hr2 => Finset.sum_congr rfl (fun c2 _ => ?_))
    have hne : ¬ (r2 = r ∧ c2 = c) := fun hand => (Finset.mem_erase.mp hr2).1 hand.1
    rw [hcell r2 c2, if_neg hne]
  have hinner :
      (∑ c2 ∈ (Finset.range 7).erase c,
        (if cell (setCell b r c v) r c2 = 0 then (1:ℤ) else 0)) =
      (∑ c2 ∈ (Finset.range 7).erase c,
        (if cell b r c2 = 0 then (1:ℤ) else 0)) := by
    refine Finset.sum_congr rfl (fun c2 hc2 => ?_)
    have hne : ¬ (r = r ∧ c2 = c) := fun hand => (Finset.mem_erase.mp hc2).1 hand.2
    rw [hcell r c2, if_neg hne]
  have hrowdec :
      (∑ c2 ∈ Finset.range 7, (if cell (setCell b r c v) r c2 = 0 then (1:ℤ) else 0)) =
      (∑ c2 ∈ Finset.range 7, (if cell b r c2 = 0 then (1:ℤ) else 0))
        - (if cell b r c = 0 then (1:ℤ) else 0) + (if v = 0 then 1 else 0) := by
    rw [← Finset.sum_erase_add _ _ hcmem, hinner,
        ← Finset.sum_erase_add (Finset.range 7)
          (fun c2 => (if cell b r c2 = 0 then (1:ℤ) else 0)) hcmem,
        hcell r c, if_pos (And.intro rfl rfl)]
    ring
  rw [← Finset.sum_erase_add _ _ hrmem, houter, hrowdec,
      ← Finset.sum_erase_add (Finset.range 6)
        (fun r2 => ∑ c2 ∈ Finset.range 7, (if cell b r2 c2 = 0 then (1:ℤ) else 0)) hrmem]
  ring

/-- Under gravity, an empty cell anywhere in a column forces the top cell of
that column to be empty. -/
theorem top_empty_of_empty {b : Board} (hg : gravityOK b) {c : ℕ} (hc : c < 7) :
    ∀ r, r < 6 → cell b r c = 0 → cell b 5 c = 0 := by
  have climb : ∀ k r, r + k = 5 → cell b r c = 0 → cell b 5 c = 0 := by
    intro k
    induction k with
    | zero => intro r h h0; have : r = 5 := by omega
              rw [this] at h0; exact h0
    | succ k ih =>
        intro r h h0
        exact ih (r + 1) (by omega) (hg c hc r (by omega) h0)
  intro r hr h0
  exact climb (5 - r) r (by omega) h0

/-- countEmpty is positive exactly when some cell of the grid is empty. -/
theorem countEmpty_pos_iff (b : Board) :
    countEmpty b ≠ 0 ↔ ∃ r, r < 6 ∧ ∃ c, c < 7 ∧ cell b r c = 0 := by
  constructor
  · intro h
    by_contra hno
    push_neg at hno
    apply h
    unfold countEmpty
    refine Finset.sum_eq_zero (fun r hr => Finset.sum_eq_zero (fun c hc => ?_))
    rw [if_neg (hno r (Finset.mem_range.mp hr) c (Finset.mem_range.mp hc))]
  · rintro ⟨r, hr, c, hc, h0⟩
    have hpos : 0 < countEmpty b := by
      unfold countEmpty
      have hterm : (0:ℤ) < ∑ c2 ∈ Finset.range 7, (if cell b r c2 = 0 then (1:ℤ) else 0) := by
        have hone : (if cell b r c = 0 then (1:ℤ) else 0) = 1 := if_pos h0
        calc (0:ℤ) < 1 := one_pos
        _ = (if cell b r c = 0 then (1:ℤ) else 0) := hone.symm
        _ ≤ _ := Finset.single_le_sum (f := fun c2 => (if cell b r c2 = 0 then (1:ℤ) else 0))
            (fun i _ => by positivity) (Finset.mem_range.mpr hc)
      calc (0:ℤ) < _ := hterm
      _ ≤ _ := Finset.single_le_sum
          (f := fun r2 => ∑ c2 ∈ Finset.range 7, (if cell b r2 c2 = 0 then (1:ℤ) else 0))
          (fun i _ => Finset.sum_nonneg (fun j _ => by positivity)) (Finset.mem_range.mpr hr)
    omega

/-! PyF facts, sortCenter membership, sentinel arithmetic. -/

theorem blt_ninf_fin (q : ℚ) : PyF.blt PyF.ninf (PyF.fin q) = true := rfl

theorem blt_fin_pinf (q : ℚ) : PyF.blt (PyF.fin q) PyF.pinf = true := rfl

theorem blt_fin_fin (q r : ℚ) : PyF.blt (PyF.fin q) (PyF.fin r) = decide (q < r) := rfl

theorem mem_insertCenter {x y : ℕ} {l : List ℕ} :
    x ∈ insertCenter y l ↔ x = y ∨ x ∈ l := by
  induction l with
  | nil => simp [insertCenter]
  | cons z zs ih =>
      unfold insertCenter
      split_ifs with h
      · simp only [List.mem_cons, ih]
        tauto
      · simp only [List.mem_cons]

theorem mem_sortCenter {x : ℕ} {l : List ℕ} : x ∈ sortCenter l ↔ x ∈ l := by
  induction l with
  | nil => simp [sortCenter]
  | cons z zs ih =>
      unfold sortCenter
      rw [mem_insertCenter]
      simp only [List.mem_cons, ih]

theorem length_insertCenter (y : ℕ) (l : List ℕ) :
    (insertCenter y l).length = l.length + 1 := by
  induction l with
  | nil => rfl
  | cons z zs ih =>
      unfold insertCenter
      split_ifs with h
      · simp [ih]
      · simp

theorem length_sortCenter (l : List ℕ) : (sortCenter l).length = l.length := by
  induction l with
  | nil => rfl
  | cons z zs ih =>
      unfold sortCenter
      rw [length_insertCenter, ih, List.length_cons]

theorem mem_valid_iff {b : Board} {c : ℕ} :
    c ∈ get_valid_columns b ↔ c < 7 ∧ cell b 5 c = 0 := by
  unfold get_valid_columns EMPTY
  simp [List.mem_filter, List.mem_range]

/-- The root placeholder value 0.00001 is none of the three sentinels. -/
theorem placeholder_not_sentinel :
    mkRat 1 100000 ≠ ((LOSS : ℤ) : ℚ) ∧ mkRat 1 100000 ≠ ((VIC : ℤ) : ℚ) ∧
      mkRat 1 100000 ≠ ((TIE : ℤ) : ℚ) ∧ mkRat 1 100000 ≤ ((VIC : ℤ) : ℚ) := by
  rw [Rat.mkRat_eq_div]
  simp only [LOSS, VIC, TIE]
  push_cast
  norm_num

theorem sentinel_order : ((LOSS : ℤ) : ℚ) < ((VIC : ℤ) : ℚ) ∧ (0:ℚ) ≤ ((VIC : ℤ) : ℚ) := by
  simp only [LOSS, VIC]
  push_cast
  norm_num

/-! Bounds on the heuristic score: it can never reach the sentinels. -/

theorem sum_range_bounds (n : ℕ) (f : ℕ → ℤ) (u v : ℤ)
    (h : ∀ i, i < n → u ≤ f i ∧ f i ≤ v) :
    (n : ℤ) * u ≤ ∑ i ∈ Finset.range n, f i ∧ (∑ i ∈ Finset.range n, f i) ≤ (n : ℤ) * v := by
  induction n with
  | zero => simp
  | succ n ih =>
      obtain ⟨ih1, ih2⟩ := ih (fun i hi2 => h i (by omega))
      obtain ⟨h1, h2⟩ := h n (by omega)
      rw [Finset.sum_range_succ]
      push_cast
      constructor <;> nlinarith

theorem evaluate_window_bounds (w : List ℤ) (p : ℤ) :
    -50 ≤ evaluate_window w p ∧ evaluate_window w p ≤ 100 := by
  simp only [evaluate_window]
  split_ifs <;> norm_num

theorem score_position_bounds (b : Board) (p : ℤ) :
    -4000 ≤ score_position b p ∧ score_position b p ≤ 7000 := by
  simp only [score_position]
  have hcenter := sum_range_bounds 6
    (fun r => if cell b r 3 = p then (6:ℤ) else 0) 0 6
    (fun i _ => by dsimp only; split_ifs <;> norm_num)
  have hpen : ∀ o : ℤ, -40 ≤ (if (∑ c ∈ Finset.range 7, if cell b 0 c = o then (1 : ℤ) else 0) = 2 then
      ∑ c ∈ Finset.range 4,
        (if (hwin b 0 c).count o = 2 ∧ (hwin b 0 c).count EMPTY = 2 then (-10 : ℤ) else 0)
    else 0) ∧ (if (∑ c ∈ Finset.range 7, if cell b 0 c = o then (1 : ℤ) else 0) = 2 then
      ∑ c ∈ Finset.range 4,
        (if (hwin b 0 c).count o = 2 ∧ (hwin b 0 c).count EMPTY = 2 then (-10 : ℤ) else 0)
    else 0) ≤ 0 := by
    intro o
    split_ifs with h
    · have := sum_range_bounds 4
        (fun c => if (hwin b 0 c).count o = 2 ∧ (hwin b 0 c).count EMPTY = 2 then (-10 : ℤ) else 0)
        (-10) 0 (fun i _ => by dsimp only; split_ifs <;> norm_num)
      dsimp only at this
      norm_num at this
      constructor
      · linarith [this.1]
      · linarith [this.2]
    · norm_num
  have hpen2 := hpen (if p = COMPUTER then HUMAN else COMPUTER)
  have hho := sum_range_bounds 6
    (fun r => ∑ c ∈ Finset.range 4, evaluate_window (hwin b r c) p)
    (-200) 400 (fun r _ => by
      have := sum_range_bounds 4 (fun c => evaluate_window (hwin b r c) p)
        (-50) 100 (fun c _ => evaluate_window_bounds _ _)
      dsimp only at this
      norm_num at this
      constructor
      · linarith [this.1]
      · linarith [this.2])
  have hve := sum_range_bounds 7
    (fun c => ∑ r ∈ Finset.range 3, evaluate_window (vwin b r c) p)
    (-150) 300 (fun c _ => by
      have := sum_range_bounds 3 (fun r => evaluate_window (vwin b r c) p)
        (-50) 100 (fun r _ => evaluate_window_bounds _ _)
      dsimp only at this
      norm_num at this
      constructor
      · linarith [this.1]
      · linarith [this.2])
  have hdp := sum_range_bounds 3
    (fun r => ∑ c ∈ Finset.range 4, evaluate_window (dpwin b r c) p)
    (-200) 400 (fun r _ => by
      have := sum_range_bounds 4 (fun c => evaluate_window (dpwin b r c) p)
        (-50) 100 (fun c _ => evaluate_window_bounds _ _)
      dsimp only at this
      norm_num at this
      constructor
      · linarith [this.1]
      · linarith [this.2])
  have hdn := sum_range_bounds 3
    (fun r => ∑ c ∈ Finset.range 4, evaluate_window (dnwin b r c) p)
    (-200) 400 (fun r _ => by
      have := sum_range_bounds 4 (fun c => evaluate_window (dnwin b r c) p)
        (-50) 100 (fun c _ => evaluate_window_bounds _ _)
      dsimp only at this
      norm_num at this
      constructor
      · linarith [this.1]
      · linarith [this.2])
  dsimp only at hcenter hho hve hdp hdn
  norm_num at hcenter hho hve hdp hdn
  constructor
  · linarith [hcenter.1, hpen2.1, hho.1, hve.1, hdp.1, hdn.1]
  · linarith [hcenter.2, hpen2.2, hho.2, hve.2, hdp.2, hdn.2]

/-- The heuristic margin is strictly inside the sentinel range, and equals the
TIE sentinel exactly when the integer margin is 0. -/
theorem heuristic_vs_sentinels (b : Board) :
    ((score_position b COMPUTER - score_position b HUMAN : ℤ) : ℚ) ≠ ((VIC : ℤ) : ℚ) ∧
    ((score_position b COMPUTER - score_position b HUMAN : ℤ) : ℚ) ≠ ((LOSS : ℤ) : ℚ) ∧
    (((score_position b COMPUTER - score_position b HUMAN : ℤ) : ℚ) = ((TIE : ℤ) : ℚ) ↔
      score_position b COMPUTER - score_position b HUMAN = 0) ∧
    ((score_position b COMPUTER - score_position b HUMAN : ℤ) : ℚ) ≤ ((VIC : ℤ) : ℚ) := by
  obtain ⟨hc1, hc2⟩ := score_position_bounds b COMPUTER
  obtain ⟨hh1, hh2⟩ := score_position_bounds b HUMAN
  have hVIC : score_position b COMPUTER - score_position b HUMAN ≠ VIC := by
    unfold VIC; omega
  have hLOSS : score_position b COMPUTER - score_position b HUMAN ≠ LOSS := by
    unfold LOSS VIC; omega
  have hle : score_position b COMPUTER - score_position b HUMAN ≤ VIC := by
    unfold VIC; omega
  refine ⟨?_, ?_, ?_, ?_⟩
  · exact_mod_cast hVIC
  · exact_mod_cast hLOSS
  · unfold TIE; exact_mod_cast Iff.rfl
  · exact_mod_cast hle

/-- make_move preserves the state invariant and value bound when the column
is legal, and leaves the state untouched otherwise. -/
theorem make_move_Inv {s : GameState} (hInv : Inv s) (hB : ValB s) (col : ℕ)
    (hcol : col < 7) :
    Inv (make_move s col) ∧ ValB (make_move s col) := by
  obtain ⟨hd, hg, hcount, hturn⟩ := hInv
  rcases get_next_row_spec s.board col with ⟨hm1, _⟩ | ⟨r, hrow, hr, hzero, hleast⟩
  · rw [make_move_full s col hm1]
    exact ⟨⟨hd, hg, hcount, hturn⟩, hB⟩
  · rw [make_move_of_row s col r hrow]
    have hturn_ne : s.turn ≠ 0 := by
      rcases hturn with h | h <;> rw [h] <;> simp [HUMAN, COMPUTER]
    have hcell := cell_setCell hd hr hcol s.turn
    constructor
    · refine ⟨dims_setCell col s.turn hd hr, ?_, ?_, ?_⟩
      · -- gravity is preserved: the move fills the lowest empty cell
        intro c2 hc2 r2 hr2 h0
        rw [hcell] at h0 ⊢
        by_cases hup : r2 + 1 = r ∧ c2 = col
        · -- the cell just above r2 is the filled one: r2 is below r, hence nonempty
          exfalso
          have hne : ¬ (r2 = r ∧ c2 = col) := by
            intro hand
            omega
          rw [if_neg hne] at h0
          refine hleast r2 (by omega) ?_
          rw [← hup.2]
          exact h0
        · rw [if_neg hup]
          by_cases h2 : r2 = r ∧ c2 = col
          · rw [if_pos h2] at h0
            exact absurd h0 hturn_ne
          · rw [if_neg h2] at h0
            exact hg c2 hc2 r2 hr2 h0
      · -- the empty count stays synchronized with the grid
        show s.empty - 1 = countEmpty (setCell s.board r col s.turn)
        rw [countEmpty_setCell hd hr hcol s.turn, if_pos hzero, if_neg hturn_ne, hcount]
        ring
      · -- the turn flips inside {HUMAN, COMPUTER}
        show (if s.turn = HUMAN then COMPUTER else HUMAN) = HUMAN ∨
          (if s.turn = HUMAN then COMPUTER else HUMAN) = COMPUTER
        by_cases h : s.turn = HUMAN
        · right
          rw [if_pos h]
        · left
          rw [if_neg h]
    · -- the new value never exceeds the win sentinel
      show (if check_win _ COMPUTER then ((VIC : ℤ) : ℚ) else _) ≤ ((VIC : ℤ) : ℚ)
      split_ifs with h1 h2 h3
      · exact le_refl _
      · exact le_of_lt sentinel_order.1
      · simpa [TIE] using sentinel_order.2
      · exact (heuristic_vs_sentinels _).2.2.2

/-! The search returns a finite value bounded by the win sentinel, and a
column that is legal whenever the node was expanded. -/

theorem loopMax_ok (f : GameState → PyF → PyF → PyF × ℕ) (C : List ℕ) :
    ∀ (L : List (GameState × ℕ)) (a b v : PyF) (best : ℕ),
      (∀ p ∈ L, p.2 ∈ C ∧ ∀ a2 b2, isFinLe (f p.1 a2 b2).1) →
      ((isFinLe v ∧ best ∈ C) ∨ (v = PyF.ninf ∧ L ≠ [])) →
      isFinLe (loopMax f L a b v best).1 ∧ (loopMax f L a b v best).2 ∈ C := by
  intro L
  induction L with
  | nil =>
      intro a b v best _ hv
      rcases hv with ⟨h1, h2⟩ | ⟨_, hne⟩
      · exact ⟨h1, h2⟩
      · exact absurd rfl hne
  | cons p rest ih =>
      intro a b v best hL hv
      obtain ⟨child, col⟩ := p
      obtain ⟨hcol, hfin⟩ := hL (child, col) (List.mem_cons_self _ _)
      obtain ⟨qt, hqt, hqtle⟩ := hfin a b
      simp only [loopMax, hqt]
      have hstep : isFinLe (if PyF.blt v (PyF.fin qt) then PyF.fin qt else v) ∧
          (if PyF.blt v (PyF.fin qt) then col else best) ∈ C ∨
          (PyF.blt v (PyF.fin qt) = true ∧
            (if PyF.blt v (PyF.fin qt) then PyF.fin qt else v) = PyF.fin qt ∧
            (if PyF.blt v (PyF.fin qt) then col else best) = col) := by
      -- case analysis on whether the running maximum is replaced
        rcases hv with ⟨⟨qv, hqv, hqvle⟩, hbest⟩ | ⟨hninf, _⟩
        · left
          by_cases hb : PyF.blt v (PyF.fin qt) = true
          · rw [if_pos hb, if_pos hb]
            exact ⟨⟨qt, rfl, hqtle⟩, hcol⟩
          · rw [if_neg hb, if_neg hb]
            exact ⟨⟨qv, hqv, hqvle⟩, hbest⟩
        · right
          rw [hninf]
          exact ⟨rfl, rfl, rfl⟩
      have hv2 : isFinLe (if PyF.blt v (PyF.fin qt) then PyF.fin qt else v) ∧
          (if PyF.blt v (PyF.fin qt) then col else best) ∈ C := by
        rcases hstep with h | ⟨_, h2, h3⟩
        · exact h
        · rw [h2, h3]
          exact ⟨⟨qt, rfl, hqtle⟩, hcol⟩
      by_cases hcut : PyF.blt (if PyF.blt v (PyF.fin qt) then PyF.fin qt else v) b = false
      · rw [if_pos hcut]
        exact ⟨hv2.1, hcol⟩
      · rw [if_neg hcut]
        exact ih _ _ _ _ (fun p hp => hL p (List.mem_cons_of_mem _ hp)) (Or.inl hv2)

theorem loopMin_ok (f : GameState → PyF → PyF → PyF × ℕ) (C : List ℕ) :
    ∀ (L : List (GameState × ℕ)) (a b v : PyF) (best : ℕ),
      (∀ p ∈ L, p.2 ∈ C ∧ ∀ a2 b2, isFinLe (f p.1 a2 b2).1) →
      ((isFinLe v ∧ best ∈ C) ∨ (v = PyF.pinf ∧ L ≠ [])) →
      isFinLe (loopMin f L a b v best).1 ∧ (loopMin f L a b v best).2 ∈ C := by
  intro L
  induction L with
  | nil =>
      intro a b v best _ hv
      rcases hv with ⟨h1, h2⟩ | ⟨_, hne⟩
      · exact ⟨h1, h2⟩
      · exact absurd rfl hne
  | cons p rest ih =>
      intro a b v best hL hv
      obtain ⟨child, col⟩ := p
      obtain ⟨hcol, hfin⟩ := hL (child, col) (List.mem_cons_self _ _)
      obtain ⟨qt, hqt, hqtle⟩ := hfin a b
      simp only [loopMin, hqt]
      have hv2 : isFinLe (if PyF.blt (PyF.fin qt) v then PyF.fin qt else v) ∧
          (if PyF.blt (PyF.fin qt) v then col else best) ∈ C := by
        rcases hv with ⟨⟨qv, hqv, hqvle⟩, hbest⟩ | ⟨hpinf, _⟩
        · by_cases hb : PyF.blt (PyF.fin qt) v = true
          · rw [if_pos hb, if_pos hb]
            exact ⟨⟨qt, rfl, hqtle⟩, hcol⟩
          · rw [if_neg hb, if_neg hb]
            exact ⟨⟨qv, hqv, hqvle⟩, hbest⟩
        · rw [hpinf]
          have hb : PyF.blt (PyF.fin qt) PyF.pinf = true := rfl
          rw [if_pos hb, if_pos hb]
          exact ⟨⟨qt, rfl, hqtle⟩, hcol⟩
      by_cases hcut : PyF.blt a (if PyF.blt (PyF.fin qt) v then PyF.fin qt else v) = false
      · rw [if_pos hcut]
        exact ⟨hv2.1, hcol⟩
      · rw [if_neg hcut]
        exact ih _ _ _ _ (fun p hp => hL p (List.mem_cons_of_mem _ hp)) (Or.inl hv2)

/-- A state that is not finished has at least one legal column. -/
theorem valid_cols_ne_nil {s : GameState} (hI : Inv s) (hf : is_finished s = false) :
    get_valid_columns s.board ≠ [] := by
  obtain ⟨hd, hg, hcount, hturn⟩ := hI
  have hne : s.empty ≠ 0 := by
    intro h0
    rw [is_finished, decide_eq_false_iff_not] at hf
    exact hf (Or.inr (Or.inr (Or.inr h0)))
  rw [hcount] at hne
  obtain ⟨r, hr, c, hc, hcell⟩ := (countEmpty_pos_iff s.board).mp hne
  have htop := top_empty_of_empty hg hc r hr hcell
  intro hnil
  have : c ∈ get_valid_columns s.board := mem_valid_iff.mpr ⟨hc, htop⟩
  rw [hnil] at this
  exact absurd this (List.not_mem_nil c)

/-- Children of get_next: each is a legal move applied to the state. -/
theorem mem_get_next {s : GameState} {p : GameState × ℕ} (hp : p ∈ get_next s) :
    ∃ col, col ∈ get_valid_columns s.board ∧ p = (make_move s col, col) := by
  unfold get_next at hp
  obtain ⟨col, hcol, hpe⟩ := List.mem_map.mp hp
  exact ⟨col, mem_sortCenter.mp hcol, hpe.symm⟩

theorem get_next_ne_nil {s : GameState} (hI : Inv s) (hf : is_finished s = false) :
    get_next s ≠ [] := by
  have h1 := valid_cols_ne_nil hI hf
  unfold get_next
  intro hnil
  rw [List.map_eq_nil_iff] at hnil
  have := length_sortCenter (get_valid_columns s.board)
  rw [hnil] at this
  exact h1 (List.eq_nil_of_length_eq_zero this.symm)

/-- Main search lemma: on an invariant state the search result is a finite
value at most VIC, and whenever the node is expanded (positive depth, not
finished) the returned column is legal. -/
theorem search_ok : ∀ (d : ℕ) (isMax : Bool) (s : GameState) (a b : PyF), Inv2 s →
    isFinLe (search d isMax s a b).1 ∧
    (d ≠ 0 → is_finished s = false →
      (search d isMax s a b).2 ∈ get_valid_columns s.board) := by
  intro d
  induction d with
  | zero =>
      intro isMax s a b hs
      rw [search_zero]
      exact ⟨⟨s.val, rfl, hs.2⟩, fun h => absurd rfl h⟩
  | succ d ih =>
      intro isMax s a b hs
      rw [search_succ]
      by_cases hf : is_finished s = true
      · rw [if_pos hf]
        refine ⟨⟨s.val, rfl, hs.2⟩, fun _ hferr => ?_⟩
        rw [hf] at hferr
        exact absurd hferr (by simp)
      · have hf2 : is_finished s = false := by
          rw [Bool.not_eq_true] at hf
          exact hf
        rw [if_neg hf]
        have hL : ∀ p ∈ get_next s, p.2 ∈ get_valid_columns s.board ∧
            ∀ (a2 b2 : PyF) (m : Bool), isFinLe (search d m p.1 a2 b2).1 := by
          intro p hp
          obtain ⟨col, hcolmem, hpe⟩ := mem_get_next hp
          obtain ⟨hc7, _⟩ := mem_valid_iff.mp hcolmem
          have hchild := make_move_Inv hs.1 hs.2 col hc7
          refine ⟨by rw [hpe]; exact hcolmem, fun a2 b2 m => ?_⟩
          have := (ih m (make_move s col) a2 b2 ⟨hchild.1, hchild.2⟩).1
          rw [hpe]
          exact this
        have hne := get_next_ne_nil hs.1 hf2
        by_cases hm : isMax
        · rw [if_pos hm]
          have := loopMax_ok (fun c a2 b2 => search d false c a2 b2)
            (get_valid_columns s.board) (get_next s) a b PyF.ninf 0
            (fun p hp => ⟨(hL p hp).1, fun a2 b2 => (hL p hp).2 a2 b2 false⟩)
            (Or.inr ⟨rfl, hne⟩)
          exact ⟨this.1, fun _ _ => this.2⟩
        · rw [if_neg hm]
          have := loopMin_ok (fun c a2 b2 => search d true c a2 b2)
            (get_valid_columns s.board) (get_next s) a b PyF.pinf 0
            (fun p hp => ⟨(hL p hp).1, fun a2 b2 => (hL p hp).2 a2 b2 true⟩)
            (Or.inr ⟨rfl, hne⟩)
          exact ⟨this.1, fun _ _ => this.2⟩

/-- The root built by create_state on a board with a legal column is not
finished. -/
theorem create_state_not_finished {b : Board} {c : ℕ} (hc : c < 7)
    (htop : cell b 5 c = 0) : is_finished (create_state b) = false := by
  obtain ⟨hL, hV, hT, _⟩ := placeholder_not_sentinel
  have hcount : countEmpty b ≠ 0 :=
    (countEmpty_pos_iff b).mpr ⟨5, by omega, c, hc, htop⟩
  rw [is_finished, decide_eq_false_iff_not]
  rintro (h | h | h | h)
  · exact hL h
  · exact hV h
  · exact hT h
  · exact hcount h

/-! Claim theorems. -/

/-- Claim C10: calling make_move on a column with no empty row is a silent
no-op: the state (grid, value, turn, empty count) is returned unchanged and
no error is signaled. -/
theorem C10_full_column_noop (s : GameState) (col : ℕ)
    (h : ∀ r, r < 6 → cell s.board r col ≠ 0) :
    make_move s col = s := by
  rcases get_next_row_spec s.board col with ⟨hm1, _⟩ | ⟨r, _, hr, hzero, _⟩
  · exact make_move_full s col hm1
  · exact absurd hzero (h r hr)

/-- Claim C10 witness: the first column of the full board. -/
theorem C10_full_column_noop_witness :
    (∀ r, r < 6 → cell fullBoard r 0 ≠ 0) ∧
      make_move (create_state fullBoard) 0 = create_state fullBoard :=
  ⟨by decide, C10_full_column_noop (create_state fullBoard) 0 (by decide)⟩

/-- Claim C4: on a legal column (topmost cell empty), make_move places the
piece of the player to move at the lowest empty row of the column,
decrements the stored empty count by exactly one, flips the turn, and sets
the value to VIC if the COMPUTER now has four in a row, else LOSS if the
HUMAN has, else TIE if the empty count reached zero, else the margin
score_position(COMPUTER) - score_position(HUMAN), always from the fixed
perspective of the MAX player. -/
theorem C4_make_move_spec (s : GameState) (col : ℕ)
    (hlegal : cell s.board 5 col = 0)
    (hturn : s.turn = HUMAN ∨ s.turn = COMPUTER) :
    ∃ r : ℕ, r < 6 ∧ cell s.board r col = 0 ∧
      (∀ r2, r2 < r → cell s.board r2 col ≠ 0) ∧
      make_move s col =
        ⟨setCell s.board r col s.turn,
         (if check_win (setCell s.board r col s.turn) COMPUTER = true then ((VIC : ℤ) : ℚ)
          else if check_win (setCell s.board r col s.turn) HUMAN = true then ((LOSS : ℤ) : ℚ)
          else if s.empty - 1 = 0 then ((TIE : ℤ) : ℚ)
          else ((score_position (setCell s.board r col s.turn) COMPUTER -
                 score_position (setCell s.board r col s.turn) HUMAN : ℤ) : ℚ)),
         3 - s.turn,
         s.empty - 1⟩ := by
  obtain ⟨r, hrow, hr, hzero, hleast⟩ := get_next_row_of_top s.board col hlegal
  refine ⟨r, hr, hzero, hleast, ?_⟩
  rw [make_move_of_row s col r hrow]
  have hflip : (if s.turn = HUMAN then COMPUTER else HUMAN) = 3 - s.turn := by
    rcases hturn with h | h <;> rw [h] <;> simp [HUMAN, COMPUTER]
  rw [hflip]

/-- Claim C4 witness: the first move of the game, in the center column. -/
theorem C4_make_move_spec_witness :
    (cell emptyBoard 5 3 = 0 ∧
      ((create_state emptyBoard).turn = HUMAN ∨ (create_state emptyBoard).turn = COMPUTER)) ∧
    (∃ r : ℕ, r < 6 ∧ cell (create_state emptyBoard).board r 3 = 0 ∧
      (∀ r2, r2 < r → cell (create_state emptyBoard).board r2 3 ≠ 0) ∧
      make_move (create_state emptyBoard) 3 =
        ⟨setCell (create_state emptyBoard).board r 3 (create_state emptyBoard).turn,
         (if check_win (setCell (create_state emptyBoard).board r 3 (create_state emptyBoard).turn) COMPUTER = true then ((VIC : ℤ) : ℚ)
          else if check_win (setCell (create_state emptyBoard).board r 3 (create_state emptyBoard).turn) HUMAN = true then ((LOSS : ℤ) : ℚ)
          else if (create_state emptyBoard).empty - 1 = 0 then ((TIE : ℤ) : ℚ)
          else ((score_position (setCell (create_state emptyBoard).board r 3 (create_state emptyBoard).turn) COMPUTER -
                 score_position (setCell (create_state emptyBoard).board r 3 (create_state emptyBoard).turn) HUMAN : ℤ) : ℚ)),
         3 - (create_state emptyBoard).turn,
         (create_state emptyBoard).empty - 1⟩) :=
  ⟨⟨by decide, by decide⟩,
    C4_make_move_spec (create_state emptyBoard) 3 (by decide) (by decide)⟩

/-- Claim C1 counterexample: the state reached from the empty-board root by
the legal move in column 0 is classified as finished (its heuristic value is
exactly 0, the TIE sentinel), although its grid holds no four-in-a-row for
either player and 41 cells are still empty. -/
theorem C1_counterexample :
    is_finished (make_move (create_state emptyBoard) 0) = true ∧
    check_win (make_move (create_state emptyBoard) 0).board COMPUTER = false ∧
    check_win (make_move (create_state emptyBoard) 0).board HUMAN = false ∧
    (make_move (create_state emptyBoard) 0).empty = 41 := by
  refine ⟨by decide, by decide, by decide, by decide⟩

/-- Claim C1 (amended): a state produced by applying a legal move is
classified as terminal if and only if its grid holds a four-in-a-row for
some player, or its empty count is zero, or its stored value is exactly 0 --
the tie sentinel, which a balanced heuristic evaluation also produces on
non-terminal positions. -/
theorem C1_terminal_classification (s : GameState) (col : ℕ) (r : ℕ)
    (hrow : get_next_row s.board col = (r : ℤ)) :
    is_finished (make_move s col) = true ↔
      (check_win (make_move s col).board COMPUTER = true ∨
       check_win (make_move s col).board HUMAN = true ∨
       (make_move s col).empty = 0 ∨
       (make_move s col).val = 0) := by
  have hmm := make_move_of_row s col r hrow
  have hboard : (make_move s col).board = setCell s.board r col s.turn := by rw [hmm]
  have hemp : (make_move s col).empty = s.empty - 1 := by rw [hmm]
  have hval : (make_move s col).val =
      (if check_win (setCell s.board r col s.turn) COMPUTER = true then ((VIC : ℤ) : ℚ)
       else if check_win (setCell s.board r col s.turn) HUMAN = true then ((LOSS : ℤ) : ℚ)
       else if s.empty - 1 = 0 then ((TIE : ℤ) : ℚ)
       else ((score_position (setCell s.board r col s.turn) COMPUTER -
              score_position (setCell s.board r col s.turn) HUMAN : ℤ) : ℚ)) := by
    rw [hmm]
  obtain ⟨hV, hL, hT, _⟩ := heuristic_vs_sentinels (setCell s.board r col s.turn)
  rw [is_finished, decide_eq_true_eq, hval, hemp, hboard]
  by_cases h1 : check_win (setCell s.board r col s.turn) COMPUTER = true
  · rw [if_pos h1]
    exact ⟨fun _ => Or.inl h1, fun _ => Or.inr (Or.inl rfl)⟩
  · rw [if_neg h1]
    by_cases h2 : check_win (setCell s.board r col s.turn) HUMAN = true
    · rw [if_pos h2]
      exact ⟨fun _ => Or.inr (Or.inl h2), fun _ => Or.inl rfl⟩
    · rw [if_neg h2]
      by_cases h3 : s.empty - 1 = 0
      · rw [if_pos h3]
        exact ⟨fun _ => Or.inr (Or.inr (Or.inl h3)),
               fun _ => Or.inr (Or.inr (Or.inl rfl))⟩
      · rw [if_neg h3]
        constructor
        · rintro (h | h | h | h)
          · exact absurd h hL
          · exact absurd h hV
          · refine Or.inr (Or.inr (Or.inr ?_))
            rw [h]
            simp [TIE]
          · exact absurd h h3
        · rintro (h | h | h | h)
          · exact absurd h h1
          · exact absurd h h2
          · exact absurd h h3
          · refine Or.inr (Or.inr (Or.inl ?_))
            rw [h]
            simp [TIE]

/-- Claim C1 witness: the amended classification at the concrete move of
the counterexample. -/
theorem C1_terminal_classification_witness :
    get_next_row (create_state emptyBoard).board 0 = ((0 : ℕ) : ℤ) ∧
    (is_finished (make_move (create_state emptyBoard) 0) = true ↔
      (check_win (make_move (create_state emptyBoard) 0).board COMPUTER = true ∨
       check_win (make_move (create_state emptyBoard) 0).board HUMAN = true ∨
       (make_move (create_state emptyBoard) 0).empty = 0 ∨
       (make_move (create_state emptyBoard) 0).val = 0)) :=
  ⟨by decide, C1_terminal_classification (create_state emptyBoard) 0 0 (by decide)⟩

/-- Claim C3 counterexample: on a full board (no legal column) go silently
returns column 0 instead of failing with a no-legal-moves error. -/
theorem C3_counterexample :
    ValidBoard fullBoard ∧ get_valid_columns fullBoard = [] ∧ go fullBoard = 0 := by
  refine ⟨by decide, by decide, by decide⟩

/-- Claim C3 (amended): invoked on a board with no legal column, go raises
no error; it silently returns the default column 0. -/
theorem C3_no_error_returns_zero (b : Board) (h : get_valid_columns b = []) :
    go b = 0 := by
  unfold go abmax DEPTH
  by_cases hf : is_finished (create_state b) = true
  · rw [show (4 : ℕ) = 3 + 1 from rfl, search_succ, if_pos hf]
  · rw [show (4 : ℕ) = 3 + 1 from rfl, search_succ, if_neg hf]
    rw [if_pos rfl]
    unfold get_next
    have hb : get_valid_columns (create_state b).board = [] := h
    rw [hb]
    rfl

/-- Claim C3 witness: the amended statement applied to the full board. -/
theorem C3_no_error_returns_zero_witness :
    get_valid_columns fullBoard = [] ∧ go fullBoard = 0 :=
  ⟨by decide, C3_no_error_returns_zero fullBoard (by decide)⟩

/-- Claim C2: on every valid board with at least one legal column, go
returns a column index in [0,7) whose topmost cell (row 5) is empty on that
board. -/
theorem C2_go_returns_legal_column (b : Board) (hv : ValidBoard b)
    (hcol : ∃ c, c < 7 ∧ cell b 5 c = 0) :
    go b < 7 ∧ cell b 5 (go b) = 0 := by
  obtain ⟨hd, hcells, hg⟩ := hv
  obtain ⟨c, hc, htop⟩ := hcol
  have hInv : Inv2 (create_state b) :=
    ⟨⟨hd, hg, rfl, Or.inr rfl⟩, placeholder_not_sentinel.2.2.2⟩
  have hnf := create_state_not_finished hc htop
  unfold go abmax
  have hmem := (search_ok DEPTH true (create_state b)
    (PyF.fin ((LOSS - 1 : ℤ) : ℚ)) (PyF.fin ((VIC + 1 : ℤ) : ℚ)) hInv).2
    (by decide) hnf
  have := mem_valid_iff.mp hmem
  exact ⟨this.1, this.2⟩

/-- Claim C2 witness: the empty board. -/
theorem C2_go_returns_legal_column_witness :
    (ValidBoard emptyBoard ∧ (3 < 7 ∧ cell emptyBoard 5 3 = 0)) ∧
    (go emptyBoard < 7 ∧ cell emptyBoard 5 (go emptyBoard) = 0) :=
  ⟨⟨by decide, by decide, by decide⟩,
    C2_go_returns_legal_column emptyBoard (by decide) ⟨3, by decide, by decide⟩⟩

/-- Stable center-first ordering of any subset of the columns: sorting the
ascending legal columns by distance from column 3 yields exactly the
subsequence of [3, 2, 4, 1, 5, 0, 6]. -/
theorem sortCenter_filter (P : ℕ → Bool) :
    sortCenter ((List.range 7).filter P) = [3, 2, 4, 1, 5, 0, 6].filter P := by
  have h7 : List.range 7 = [0, 1, 2, 3, 4, 5, 6] := by decide
  rw [h7]
  cases h0 : P 0 <;> cases h1 : P 1 <;> cases h2 : P 2 <;> cases h3 : P 3 <;>
    cases h4 : P 4 <;> cases h5 : P 5 <;> cases h6 : P 6 <;>
    simp only [List.filter, h0, h1, h2, h3, h4, h5, h6] <;> decide

/-- Claim C6: get_next returns exactly one child per legal column, ordered
by ascending distance from the center with ties broken by ascending index --
the subsequence of [3, 2, 4, 1, 5, 0, 6] restricted to the legal columns --
each child being the state with that single move applied, paired with the
column played. -/
theorem C6_get_next_order (s : GameState) :
    get_next s =
      ([3, 2, 4, 1, 5, 0, 6].filter (fun c => decide (cell s.board 5 c = EMPTY))).map
        (fun col => (make_move s col, col)) := by
  unfold get_next get_valid_columns
  rw [sortCenter_filter]

/-- Both alpha-beta loops keep a running best of the given finite value and
never replace the recorded column when no strict improvement occurs. -/
theorem loopMax_stay (f : GameState → PyF → PyF → PyF × ℕ) (w : ℚ) (b : PyF)
    (hb : PyF.blt (PyF.fin w) b = true) :
    ∀ (L : List (GameState × ℕ)) (a : PyF) (best : ℕ),
      (∀ p ∈ L, ∀ a2 b2, PyF.blt (PyF.fin w) (f p.1 a2 b2).1 = false) →
      loopMax f L a b (PyF.fin w) best = (PyF.fin w, best) := by
  intro L
  induction L with
  | nil =>
      intro a best _
      rfl
  | cons p rest ih =>
      intro a best hL
      obtain ⟨child, col⟩ := p
      have hstep := hL (child, col) (List.mem_cons_self _ _) a b
      simp only [loopMax, hstep, Bool.false_eq_true, if_false, hb]
      rw [if_neg (by simp)]
      exact ih _ _ (fun p hp => hL p (List.mem_cons_of_mem _ hp))

theorem loopMin_stay (f : GameState → PyF → PyF → PyF × ℕ) (w : ℚ) (a : PyF)
    (ha : PyF.blt a (PyF.fin w) = true) :
    ∀ (L : List (GameState × ℕ)) (b : PyF) (best : ℕ),
      (∀ p ∈ L, ∀ a2 b2, PyF.blt (f p.1 a2 b2).1 (PyF.fin w) = false) →
      loopMin f L a b (PyF.fin w) best = (PyF.fin w, best) := by
  intro L
  induction L with
  | nil =>
      intro b best _
      rfl
  | cons p rest ih =>
      intro b best hL
      obtain ⟨child, col⟩ := p
      have hstep := hL (child, col) (List.mem_cons_self _ _) a b
      simp only [loopMin, hstep, Bool.false_eq_true, if_false, ha]
      rw [if_neg (by simp)]
      exact ih _ _ (fun p hp => hL p (List.mem_cons_of_mem _ hp))

/-- Claim C7: in the abmax loop (and mirror-wise in the abmin loop) the
recorded best column is replaced only on a strict improvement, so among
children whose backed-up values are all equal the FIRST child in generation
order is the column returned. -/
theorem C7_first_child_kept_on_ties :
    (∀ (f : GameState → PyF → PyF → PyF × ℕ) (hd : GameState × ℕ)
       (L : List (GameState × ℕ)) (a b : PyF) (w : ℚ),
       (∀ p ∈ hd :: L, ∀ a2 b2, (f p.1 a2 b2).1 = PyF.fin w) →
       PyF.blt (PyF.fin w) b = true →
       loopMax f (hd :: L) a b PyF.ninf 0 = (PyF.fin w, hd.2)) ∧
    (∀ (f : GameState → PyF → PyF → PyF × ℕ) (hd : GameState × ℕ)
       (L : List (GameState × ℕ)) (a b : PyF) (w : ℚ),
       (∀ p ∈ hd :: L, ∀ a2 b2, (f p.1 a2 b2).1 = PyF.fin w) →
       PyF.blt a (PyF.fin w) = true →
       loopMin f (hd :: L) a b PyF.pinf 0 = (PyF.fin w, hd.2)) := by
  constructor
  · intro f hd L a b w hL hb
    obtain ⟨child, col⟩ := hd
    have hstep := hL (child, col) (List.mem_cons_self _ _) a b
    have h1 : PyF.blt PyF.ninf (PyF.fin w) = true := rfl
    have h2 : ¬ (PyF.blt (PyF.fin w) b = false) := by
      rw [hb]
      simp
    simp only [loopMax, hstep]
    simp only [if_pos h1]
    rw [if_neg h2]
    exact loopMax_stay f w b hb L _ col
      (fun p hp a2 b2 => by
        rw [hL p (List.mem_cons_of_mem _ hp) a2 b2]
        simp [PyF.blt])
  · intro f hd L a b w hL ha
    obtain ⟨child, col⟩ := hd
    have hstep := hL (child, col) (List.mem_cons_self _ _) a b
    have h1 : PyF.blt (PyF.fin w) PyF.pinf = true := rfl
    have h2 : ¬ (PyF.blt a (PyF.fin w) = false) := by
      rw [ha]
      simp
    simp only [loopMin, hstep]
    simp only [if_pos h1]
    rw [if_neg h2]
    exact loopMin_stay f w a ha L _ col
      (fun p hp a2 b2 => by
        rw [hL p (List.mem_cons_of_mem _ hp) a2 b2]
        simp [PyF.blt])

/-- Claim C7 witness: two children sharing the backed-up value 5. -/
theorem C7_first_child_kept_on_ties_witness :
    loopMax (fun _ _ _ => (PyF.fin 5, 0)) [(create_state emptyBoard, 2), (create_state emptyBoard, 4)]
      (PyF.fin 0) PyF.pinf PyF.ninf 0 = (PyF.fin 5, 2) ∧
    loopMin (fun _ _ _ => (PyF.fin 5, 0)) [(create_state emptyBoard, 2), (create_state emptyBoard, 4)]
      PyF.ninf (PyF.fin 9) PyF.pinf 0 = (PyF.fin 5, 2) :=
  ⟨C7_first_child_kept_on_ties.1 (fun _ _ _ => (PyF.fin 5, 0)) (create_state emptyBoard, 2)
      [(create_state emptyBoard, 4)] (PyF.fin 0) PyF.pinf 5
      (fun _ _ _ _ => rfl) (by decide),
   C7_first_child_kept_on_ties.2 (fun _ _ _ => (PyF.fin 5, 0)) (create_state emptyBoard, 2)
      [(create_state emptyBoard, 4)] PyF.ninf (PyF.fin 9) 5
      (fun _ _ _ _ => rfl) (by decide)⟩

/-- The elif chains of evaluate_window agree with the additive table of the
specification on every window. -/
theorem evaluate_window_eq_table (w : List ℤ) (p : ℤ) :
    evaluate_window w p = windowTableScore w p := by
  simp only [evaluate_window, windowTableScore]
  split_ifs <;> omega

/-- Claim C5: score_position equals the specification formula: 6 per own
piece in the center column, the window table over every window of the four
orientations, and the conditional bottom-row double-threat penalty. -/
theorem C5_score_position_formula (b : Board) (p : ℤ) :
    score_position b p = scorePositionSpec b p := by
  simp only [score_position, scorePositionSpec, evaluate_window_eq_table]
  have hc : (∑ r ∈ Finset.range 6, if cell b r 3 = p then (6 : ℤ) else 0)
      = 6 * ∑ r ∈ Finset.range 6, (if cell b r 3 = p then (1 : ℤ) else 0) := by
    rw [Finset.mul_sum]
    refine Finset.sum_congr rfl (fun r _ => ?_)
    split_ifs <;> norm_num
  rw [hc]
  ring

/-- Claim C8 counterexample: on boardC8 the only legal columns are 3 and 6,
only column 6 gives the COMPUTER an immediate four-in-a-row, yet go returns
column 3 (whose forced win, found within the remaining search depth, is
encountered first in center-first order and is never overwritten by the
equal-valued immediate win, because the comparison is strict). -/
theorem C8_counterexample :
    ValidBoard boardC8 ∧
    get_valid_columns boardC8 = [3, 6] ∧
    check_win (make_move (create_state boardC8) 3).board COMPUTER = false ∧
    check_win (make_move (create_state boardC8) 6).board COMPUTER = true ∧
    go boardC8 = 3 := by
  refine ⟨by decide, by decide, by decide, by decide, by decide⟩

/-- Claim C8 (amended): if the first legal column in generation order
(closest to the center) gives the COMPUTER an immediate four-in-a-row, go
returns it; in general go may prefer an earlier-ordered column whose
backed-up value is also the win sentinel (a forced win within the search
depth) over the unique immediately-winning column. -/
theorem C8_first_ordered_win_returned (b : Board) (hv : ValidBoard b)
    (c : ℕ) (rest : List ℕ)
    (hhead : sortCenter (get_valid_columns b) = c :: rest)
    (hwinc : check_win (make_move (create_state b) c).board COMPUTER = true) :
    go b = c := by
  obtain ⟨hd, hcells, hg⟩ := hv
  have hcin : c ∈ get_valid_columns b := by
    rw [← mem_sortCenter, hhead]
    exact List.mem_cons_self _ _
  obtain ⟨hc7, htop⟩ := mem_valid_iff.mp hcin
  have hInv : Inv2 (create_state b) :=
    ⟨⟨hd, hg, rfl, Or.inr rfl⟩, placeholder_not_sentinel.2.2.2⟩
  have hnf := create_state_not_finished hc7 htop
  obtain ⟨r, hrow, hr, hzero, hleast⟩ := get_next_row_of_top b c htop
  have hmm := make_move_of_row (create_state b) c r hrow
  have hb2 : (make_move (create_state b) c).board =
      setCell (create_state b).board r c (create_state b).turn := by
    rw [hmm]
  rw [hb2] at hwinc
  have hval : (make_move (create_state b) c).val = ((VIC : ℤ) : ℚ) := by
    rw [hmm]
    exact if_pos hwinc
  have hchild_fin : is_finished (make_move (create_state b) c) = true := by
    rw [is_finished, decide_eq_true_eq]
    exact Or.inr (Or.inl hval)
  have hsc : search 3 false (make_move (create_state b) c)
      (PyF.fin ((LOSS - 1 : ℤ) : ℚ)) (PyF.fin ((VIC + 1 : ℤ) : ℚ)) =
      (PyF.fin ((VIC : ℤ) : ℚ), 0) := by
    rw [show (3 : ℕ) = 2 + 1 from rfl, search_succ, if_pos hchild_fin]
    unfold value
    rw [hval]
  have hVIClt : PyF.blt (PyF.fin ((VIC : ℤ) : ℚ)) (PyF.fin ((VIC + 1 : ℤ) : ℚ)) = true := by
    rw [blt_fin_fin, decide_eq_true_eq]
    exact_mod_cast (by omega : (VIC : ℤ) < VIC + 1)
  have hgn : get_next (create_state b) =
      (make_move (create_state b) c, c) ::
        rest.map (fun col => (make_move (create_state b) col, col)) := by
    unfold get_next
    have hbb : get_valid_columns (create_state b).board = get_valid_columns b := rfl
    rw [hbb, hhead, List.map_cons]
  have hvals : ∀ p ∈ rest.map (fun col => (make_move (create_state b) col, col)),
      ∀ a2 b2, PyF.blt (PyF.fin ((VIC : ℤ) : ℚ))
        ((search 3 false p.1 a2 b2).1) = false := by
    intro p hp a2 b2
    obtain ⟨col, hcolrest, hpe⟩ := List.mem_map.mp hp
    subst hpe
    have hcolmem : col ∈ get_valid_columns b := by
      rw [← mem_sortCenter, hhead]
      exact List.mem_cons_of_mem _ hcolrest
    have hcol7 := (mem_valid_iff.mp hcolmem).1
    have hchild := make_move_Inv hInv.1 hInv.2 col hcol7
    obtain ⟨q, hq, hqle⟩ :=
      (search_ok 3 false (make_move (create_state b) col) a2 b2 ⟨hchild.1, hchild.2⟩).1
    show PyF.blt (PyF.fin ((VIC : ℤ) : ℚ))
      ((search 3 false (make_move (create_state b) col) a2 b2).1) = false
    rw [hq, blt_fin_fin, decide_eq_false_iff_not]
    exact not_lt.mpr hqle
  unfold go abmax DEPTH
  rw [show (4 : ℕ) = 3 + 1 from rfl, search_succ,
      if_neg (by rw [hnf]; simp : ¬ (is_finished (create_state b) = true))]
  have htt : (true : Bool) = true := rfl
  rw [if_pos htt, hgn]
  simp only [loopMax, hsc]
  have h1 : PyF.blt PyF.ninf (PyF.fin ((VIC : ℤ) : ℚ)) = true := rfl
  simp only [if_pos h1]
  have hcut : ¬ (PyF.blt (PyF.fin ((VIC : ℤ) : ℚ)) (PyF.fin ((VIC + 1 : ℤ) : ℚ)) = false) := by
    rw [hVIClt]
    simp
  rw [if_neg hcut]
  rw [loopMax_stay (fun c a2 b2 => search 3 false c a2 b2) ((VIC : ℤ) : ℚ)
    (PyF.fin ((VIC + 1 : ℤ) : ℚ)) hVIClt
    (rest.map (fun col => (make_move (create_state b) col, col))) _ c hvals]

/-- Claim C8 witness: a board whose center column wins immediately. -/
theorem C8_first_ordered_win_returned_witness :
    (ValidBoard boardCenterWin ∧
      sortCenter (get_valid_columns boardCenterWin) = 3 :: [2, 4, 1, 5, 0, 6] ∧
      check_win (make_move (create_state boardCenterWin) 3).board COMPUTER = true) ∧
    go boardCenterWin = 3 :=
  ⟨⟨by decide, by decide, by decide⟩,
    C8_first_ordered_win_returned boardCenterWin (by decide) 3 [2, 4, 1, 5, 0, 6]
      (by decide) (by decide)⟩

/-! Frame property of the store model (claim C9): the search allocates and
mutates only fresh boards; every board that existed when a call began is
bit-for-bit unchanged when it returns. -/

theorem searchSt_zero (isMax : Bool) (st : Store) (s : StateR) (a b : PyF) :
    searchSt 0 isMax st s a b = (st, (PyF.fin s.val, 0)) := rfl

theorem searchSt_succ (d : ℕ) (isMax : Bool) (st : Store) (s : StateR) (a b : PyF) :
    searchSt (d + 1) isMax st s a b =
      if is_finishedSt s then (st, (PyF.fin s.val, 0))
      else
        let r1 := get_nextSt st s
        if isMax then
          loopMaxSt (fun st2 c a2 b2 => searchSt d false st2 c a2 b2) r1.1 r1.2 a b PyF.ninf 0
        else
          loopMinSt (fun st2 c a2 b2 => searchSt d true st2 c a2 b2) r1.1 r1.2 a b PyF.pinf 0 := rfl

theorem readB_set_ne (st : Store) (r : ℕ) (b : Board) (i : ℕ) (h : i ≠ r) :
    readB (st.set r b) i = readB st i := by
  unfold readB
  have hne : r ≠ i := fun hh => h hh.symm
  simp [List.getD_eq_getElem?_getD, List.getElem?_set, hne]

theorem presv_rfl (n : ℕ) (st : Store) (h : n ≤ st.length) : presv n st st :=
  ⟨h, fun _ _ => rfl⟩

theorem presv_trans {n : ℕ} {st st1 st2 : Store} (h1 : presv n st st1)
    (h2 : presv st1.length st1 st2) : presv n st st2 :=
  ⟨le_trans h1.1 h2.1,
   fun i hi => ((h2.2 i (lt_of_lt_of_le hi h1.1)).trans (h1.2 i hi))⟩

theorem copySt_frame (st : Store) (s : StateR) :
    (copySt st s).1.length = st.length + 1 ∧ presv st.length st (copySt st s).1 ∧
      (copySt st s).2.ref = st.length := by
  refine ⟨by simp [copySt], ⟨by simp [copySt], fun i hi => ?_⟩, rfl⟩
  show readB (st ++ [readB st s.ref]) i = readB st i
  unfold readB
  exact List.getD_append st [readB st s.ref] [] i hi

theorem make_moveSt_frame (st : Store) (s : StateR) (col : ℕ) :
    (make_moveSt st s col).1.length = st.length ∧
      ∀ i, i ≠ s.ref → readB (make_moveSt st s col).1 i = readB st i := by
  simp only [make_moveSt]
  by_cases h : get_next_row (readB st s.ref) col = -1
  · rw [if_pos h]
    exact ⟨rfl, fun _ _ => rfl⟩
  · rw [if_neg h]
    exact ⟨List.length_set st s.ref _, fun i hi => readB_set_ne st s.ref _ i hi⟩

theorem childrenSt_frame (s : StateR) :
    ∀ (cols : List ℕ) (st : Store), presv st.length st (childrenSt st s cols).1 := by
  intro cols
  induction cols with
  | nil =>
      intro st
      exact presv_rfl _ _ (le_refl _)
  | cons col rest ih =>
      intro st
      simp only [childrenSt]
      obtain ⟨hlen1, hp1, href⟩ := copySt_frame st s
      obtain ⟨hlen2, hp2⟩ := make_moveSt_frame (copySt st s).1 (copySt st s).2 col
      have hp2b : presv st.length (copySt st s).1 (make_moveSt (copySt st s).1 (copySt st s).2 col).1 := by
        refine ⟨by rw [hlen2, hlen1]; omega, fun i hi => ?_⟩
        refine hp2 i ?_
        rw [href]
        omega
      have hstep : presv st.length st (make_moveSt (copySt st s).1 (copySt st s).2 col).1 :=
        ⟨hp2b.1, fun i hi => (hp2b.2 i hi).trans (hp1.2 i hi)⟩
      have hrec := ih (make_moveSt (copySt st s).1 (copySt st s).2 col).1
      exact presv_trans hstep (by
        refine ⟨?_, hrec.2⟩
        have := hrec.1
        omega)

theorem get_nextSt_frame (st : Store) (s : StateR) :
    presv st.length st (get_nextSt st s).1 :=
  childrenSt_frame s _ st

theorem loopMaxSt_frame (f : Store → StateR → PyF → PyF → Store × (PyF × ℕ))
    (hf : ∀ st c a2 b2, presv st.length st (f st c a2 b2).1) :
    ∀ (L : List (StateR × ℕ)) (st : Store) (a b v : PyF) (best : ℕ),
      presv st.length st (loopMaxSt f st L a b v best).1 := by
  intro L
  induction L with
  | nil =>
      intro st a b v best
      exact presv_rfl _ _ (le_refl _)
  | cons p rest ih =>
      intro st a b v best
      obtain ⟨child, col⟩ := p
      simp only [loopMaxSt]
      have hp2 : presv st.length st (f (copySt st child).1 (copySt st child).2 a b).1 :=
        presv_trans (copySt_frame st child).2.1 (hf _ _ _ _)
      split <;> split
      all_goals first
        | exact hp2
        | exact presv_trans hp2 (ih _ _ _ _ _)

theorem loopMinSt_frame (f : Store → StateR → PyF → PyF → Store × (PyF × ℕ))
    (hf : ∀ st c a2 b2, presv st.length st (f st c a2 b2).1) :
    ∀ (L : List (StateR × ℕ)) (st : Store) (a b v : PyF) (best : ℕ),
      presv st.length st (loopMinSt f st L a b v best).1 := by
  intro L
  induction L with
  | nil =>
      intro st a b v best
      exact presv_rfl _ _ (le_refl _)
  | cons p rest ih =>
      intro st a b v best
      obtain ⟨child, col⟩ := p
      simp only [loopMinSt]
      have hp2 : presv st.length st (f (copySt st child).1 (copySt st child).2 a b).1 :=
        presv_trans (copySt_frame st child).2.1 (hf _ _ _ _)
      split <;> split
      all_goals first
        | exact hp2
        | exact presv_trans hp2 (ih _ _ _ _ _)

theorem searchSt_frame :
    ∀ (d : ℕ) (isMax : Bool) (st : Store) (s : StateR) (a b : PyF),
      presv st.length st (searchSt d isMax st s a b).1 := by
  intro d
  induction d with
  | zero =>
      intro isMax st s a b
      exact presv_rfl _ _ (le_refl _)
  | succ d ih =>
      intro isMax st s a b
      rw [searchSt_succ]
      by_cases hf : is_finishedSt s = true
      · rw [if_pos hf]
        exact presv_rfl _ _ (le_refl _)
      · rw [if_neg hf]
        have hgn := get_nextSt_frame st s
        by_cases hm : isMax
        · simp only [hm, if_true]
          refine presv_trans hgn ?_
          exact loopMaxSt_frame _ (fun st2 c a2 b2 => ih false st2 c a2 b2) _ _ _ _ _ _
        · simp only [hm, if_false]
          refine presv_trans hgn ?_
          exact loopMinSt_frame _ (fun st2 c a2 b2 => ih true st2 c a2 b2) _ _ _ _ _ _

/-- Claim C9: go never mutates the board supplied by the caller.  In the
store model the root state aliases the caller array at reference 0, the
search mutates only the deep copies it allocates, and when goSt returns,
the caller array still holds exactly the input grid. -/
theorem C9_go_preserves_caller_board (b : Board) : readB (goSt b).1 0 = b := by
  have h := searchSt_frame DEPTH true [b] ⟨0, mkRat 1 100000, COMPUTER, countEmpty b⟩
    (PyF.fin ((LOSS - 1 : ℤ) : ℚ)) (PyF.fin ((VIC + 1 : ℤ) : ℚ))
  have h0 := h.2 0 (by simp)
  simpa [goSt, readB] using h0

end Connect4
